import Mathlib

set_option maxRecDepth 8192

/-!
Shallow embedding of the news extraction and summarization core of app.py:
the NewsExtractor class (URL validation, title selection, content selection,
paragraph fallback, whitespace cleanup) and the NewsSummarizer class (external
capability post-processing and the extractive fallback), together with proofs
of the specification claims about them.
-/

/-- Characters treated as whitespace by the Python regex whitespace class and by
str.strip in app.py: space, tab, newline, carriage return, vertical tab, form feed. -/
def isPySpace (c : Char) : Bool :=
  c == ' ' || c == '\t' || c == '\n' || c == '\r' || c == '\x0b' || c == '\x0c'

/-- Image of one character under whitespace collapsing. -/
def wsToSpace (c : Char) : Char := if isPySpace c then ' ' else c

/-- Remove trailing whitespace characters, the right half of Python str.strip. -/
def dropTrailWs : List Char → List Char
  | [] => []
  | c :: cs =>
    if dropTrailWs cs = [] then (if isPySpace c then [] else [c])
    else c :: dropTrailWs cs

/-- Python str.strip on a character list: drop leading and trailing whitespace. -/
def pyStripChars (cs : List Char) : List Char :=
  dropTrailWs (cs.dropWhile isPySpace)

/-- Python str.strip, used throughout app.py on element texts. -/
def strip (s : String) : String := ⟨pyStripChars s.data⟩

/-- One application of the re.sub in extract_article_content, collapsing every
whitespace run to a single space: a character followed by further whitespace in
the same run is dropped, and the last character of a run becomes a space. -/
def collapseWs : List Char → List Char
  | [] => []
  | [c] => [wsToSpace c]
  | c :: d :: cs =>
    if isPySpace c && isPySpace d then collapseWs (d :: cs)
    else wsToSpace c :: collapseWs (d :: cs)

/-- The content cleanup of extract_article_content: collapse whitespace runs to
single spaces, then strip both ends. -/
def normalizeWs (s : String) : String := ⟨pyStripChars (collapseWs s.data)⟩

/-- No two adjacent whitespace characters. -/
def noAdjWs : List Char → Bool
  | [] => true
  | [_] => true
  | c :: d :: cs => !(isPySpace c && isPySpace d) && noAdjWs (d :: cs)

/-- The first character, when present, is not whitespace. -/
def headNonWs : List Char → Bool
  | [] => true
  | c :: _ => !isPySpace c

/-- The last character, when present, is not whitespace. -/
def lastNonWs : List Char → Bool
  | [] => true
  | [c] => !isPySpace c
  | _ :: d :: ds => lastNonWs (d :: ds)

/-- Whitespace-normalized: no whitespace run longer than one character and no
leading or trailing whitespace. -/
def isNormalized (s : String) : Bool :=
  noAdjWs s.data && headNonWs s.data && lastNonWs s.data

/-- Python str.join: the elements interleaved with the separator. -/
def pyJoin (sep : String) : List String → String
  | [] => ""
  | [x] => x
  | x :: y :: xs => x ++ sep ++ pyJoin sep (y :: xs)

/-- A parsed HTML document, abstracted at the BeautifulSoup boundary. For a CSS
selector string, select gives the get_text results of the matching elements in
document order as seen by the title pass; selectClean and paragraphs are the
corresponding views after the script, style, nav, footer, header and aside
elements have been decomposed, the state in which content extraction runs. -/
structure Soup where
  select : String → List String
  selectClean : String → List String
  paragraphs : List String

/-- The ordered title selector list of NewsExtractor. -/
def title_selectors : List String :=
  ["h1", "title", ".headline", ".article-title", "[class*=\"title\"]",
   "[class*=\"headline\"]"]

/-- The selector loop of extract_title: select_one is the head of the matching
elements; return the stripped text when it is non-empty, else continue. -/
def extractTitleGo (soup : Soup) : List String → String
  | [] => "Article Title"
  | sel :: rest =>
    match (soup.select sel).head? with
    | none => extractTitleGo soup rest
    | some t => if strip t = "" then extractTitleGo soup rest else strip t

/-- NewsExtractor extract_title. -/
def extract_title (soup : Soup) : String := extractTitleGo soup title_selectors

/-- The ordered content selector list of NewsExtractor. -/
def content_selectors : List String :=
  ["article", ".article-content", ".post-content", ".entry-content",
   "[class*=\"article\"]", "[class*=\"content\"]", ".story-body", "main"]

/-- One step of the content scan: keep the strictly longer text. -/
def scanStep (content text : String) : String :=
  if text.length > content.length then text else content

/-- The selector scan of extract_article_content: over every selector and every
matching element in order, keep the longest stripped text, starting from "". -/
def scanContent (soup : Soup) : String :=
  (content_selectors.flatMap soup.selectClean).foldl
    (fun content t => scanStep content (strip t)) ""

/-- The content after the paragraph fallback of extract_article_content: when
the scanned content is shorter than 100 characters, it is replaced by the
stripped paragraph texts longer than 20 characters, joined with single spaces. -/
def selectedContent (soup : Soup) : String :=
  if (scanContent soup).length < 100 then
    pyJoin " " ((soup.paragraphs.map strip).filter (fun t => decide (t.length > 20)))
  else scanContent soup

/-- NewsExtractor extract_article_content: selector scan, paragraph fallback,
whitespace cleanup. -/
def extract_article_content (soup : Soup) : String :=
  normalizeWs (selectedContent soup)

/-- Characters allowed in a URL scheme by urllib.parse. -/
def isSchemeChar (c : Char) : Bool :=
  c.isAlphanum || c == '+' || c == '-' || c == '.'

/-- Split a character list at the first colon. -/
def splitColon : List Char → Option (List Char × List Char)
  | [] => none
  | c :: cs =>
    if c == ':' then some ([], cs)
    else
      match splitColon cs with
      | none => none
      | some (pre, post) => some (c :: pre, post)

/-- Modelled after urllib.parse.urlparse as called by is_valid_url: the scheme
is the lowercased part before the first colon when that part starts with an
ASCII letter and contains only scheme characters; otherwise the scheme is empty
and the rest is the whole input. -/
def urlSchemeRest (url : String) : String × String :=
  match splitColon url.data with
  | none => ("", url)
  | some ([], _) => ("", url)
  | some (c :: cs, post) =>
    if c.isAlpha && cs.all isSchemeChar then (⟨(c :: cs).map Char.toLower⟩, ⟨post⟩)
    else ("", url)

/-- Modelled after urllib.parse.urlparse: the network location is the part after
a leading double slash, up to the next slash, question mark or hash. -/
def urlNetloc (rest : String) : String :=
  match rest.data with
  | '/' :: '/' :: cs => ⟨cs.takeWhile (fun c => c != '/' && c != '?' && c != '#')⟩
  | _ => ""

/-- NewsExtractor is_valid_url: both the scheme and the network location of the
parsed URL must be non-empty. -/
def is_valid_url (url : String) : Bool :=
  (urlSchemeRest url).1 != "" && urlNetloc (urlSchemeRest url).2 != ""

/-- The dictionary returned by NewsExtractor extract_content on success. -/
structure Article where
  title : String
  content : String
  url : String
deriving DecidableEq

instance {ε α : Type} [DecidableEq ε] [DecidableEq α] : DecidableEq (Except ε α) :=
  fun x y =>
    match x, y with
    | Except.error a, Except.error b =>
      if h : a = b then isTrue (by rw [h]) else isFalse (by intro he; cases he; exact h rfl)
    | Except.error _, Except.ok _ => isFalse (by intro he; cases he)
    | Except.ok _, Except.error _ => isFalse (by intro he; cases he)
    | Except.ok a, Except.ok b =>
      if h : a = b then isTrue (by rw [h]) else isFalse (by intro he; cases he; exact h rfl)

/-- NewsExtractor extract_content, with the HTTP fetch plus HTML parse abstracted
as a function from the URL to either a parsed Soup or a RequestException message. -/
def extract_content (fetch : String → Except String Soup) (url : String) :
    Except String Article :=
  if is_valid_url url then
    match fetch url with
    | Except.error e => Except.error ("Error fetching URL: " ++ e)
    | Except.ok soup =>
      let title := extract_title soup
      let content := extract_article_content soup
      if content = "" then Except.error "Could not extract article content"
      else Except.ok ⟨title, content, url⟩
  else Except.error "Invalid URL format"

/-- Python str.replace of every newline by a space, on a character list. -/
def newlinesToSpaces (cs : List Char) : List Char :=
  cs.map (fun c => if c == '\n' then ' ' else c)

/-- Python str.split with the two-character separator period-space: a greedy
left-to-right scan into the parts between the occurrences of the separator. -/
def splitDotSpace : List Char → List (List Char)
  | [] => [[]]
  | '.' :: ' ' :: cs => [] :: splitDotSpace cs
  | c :: cs =>
    match splitDotSpace cs with
    | [] => [[c]]
    | p :: ps => (c :: p) :: ps

/-- Python string slicing from the start: the first n characters. -/
def pyTake (n : Nat) (s : String) : String := ⟨s.data.take n⟩

/-- The sentence units of fallback_summarize: the content with newlines replaced
by spaces, split on the literal period-space sequence. -/
def sentenceUnits (content : String) : List String :=
  (splitDotSpace (newlinesToSpaces content.data)).map String.mk

/-- NewsSummarizer fallback_summarize: with at least three sentence units, the
first three joined with period-space plus a trailing period; otherwise the
content, truncated with an ellipsis past 500 characters. -/
def fallback_summarize (content : String) : String :=
  if (sentenceUnits content).length ≥ 3 then
    pyJoin ". " ((sentenceUnits content).take 3) ++ "."
  else if content.length > 500 then pyTake 500 content ++ "..." else content

/-- The value returned by the external model capability: a list of fragments or
a single text. -/
inductive LMOutput where
  | fragments (xs : List String)
  | text (s : String)

/-- The prompt built by NewsSummarizer summarize. -/
def buildPrompt (title content : String) : String :=
  "\n            Please provide a clear and concise summary of this news article. Focus on the key facts, main points, and important details.\n\n            Title: "
    ++ title ++ "\n\n            Article Content: " ++ pyTake 3000 content
    ++ "\n\n            Summary:"

/-- NewsSummarizer summarize: with no client, fall back; otherwise run the
client once, post-process its output, and degrade to the fallback on any error. -/
def summarize (client : Option (String → Except String LMOutput))
    (title content : String) : String :=
  match client with
  | none => fallback_summarize content
  | some run =>
    match run (buildPrompt title content) with
    | Except.error _ => fallback_summarize content
    | Except.ok (LMOutput.fragments xs) =>
      strip (pyJoin " " ((xs.filter (fun o => o != "")).map strip))
    | Except.ok (LMOutput.text s) => strip s

/-- Modelled from the spec wording of the extractive fallback: split on
period-space after newline normalization; with at least three units, the first
three joined by period-space plus a trailing period; otherwise the content
unchanged when at most 500 characters, else its first 500 characters with an
ellipsis. -/
def fallbackSummarySpec (content : String) : String :=
  match sentenceUnits content with
  | u1 :: u2 :: u3 :: _ => u1 ++ ". " ++ u2 ++ ". " ++ u3 ++ "."
  | _ => if content.length ≤ 500 then content else pyTake 500 content ++ "..."

/-- The first non-empty candidate of a list, else the fixed placeholder title. -/
def firstNonEmptyTitle (cands : List String) : String :=
  match cands.filter (fun t => t != "") with
  | [] => "Article Title"
  | t :: _ => t

/-- Modelled from the spec wording of title selection: the first selector
candidate whose text is non-empty after trimming, else the fixed placeholder. -/
def titleSpec (soup : Soup) : String :=
  firstNonEmptyTitle
    ((title_selectors.filterMap (fun sel => (soup.select sel).head?)).map strip)

/-- Modelled from the spec wording of content selection: the single longest
text, the first seen winning exact-length ties. -/
def longestCandidate : List String → String
  | [] => ""
  | t :: rest =>
    if (longestCandidate rest).length > t.length then longestCandidate rest else t

/-- All stripped candidate texts of the content selector scan, in scan order. -/
def candidateTexts (soup : Soup) : List String :=
  (content_selectors.flatMap soup.selectClean).map strip

/-- The content selector scan as a fold over an arbitrary candidate list. -/
def scanBest (l : List String) : String := l.foldl scanStep ""

/-- A 50-character candidate block. -/
def blockShort : String := ⟨List.replicate 50 'a'⟩

/-- A 200-character candidate block. -/
def blockLong : String := ⟨List.replicate 200 'b'⟩

/-- A page on which no selector and no paragraph matches. -/
def soupEmpty : Soup := ⟨fun _ => [], fun _ => [], []⟩

/-- A page whose only usable text is one long paragraph. -/
def soupPara : Soup :=
  ⟨fun _ => [], fun _ => [], ["This paragraph easily exceeds twenty characters.", "tiny"]⟩

/-- The article extracted from soupPara. -/
def articlePara : Article :=
  ⟨"Article Title", "This paragraph easily exceeds twenty characters.", "http://x"⟩

/-- A page whose first h1 has empty text while its second h1 has text. -/
def soupTwoH1 : Soup :=
  ⟨fun sel => if sel = "h1" then ["", "Second headline"] else [], fun _ => [], []⟩

/-- A page with a single h1 with empty text. -/
def soupOneH1 : Soup :=
  ⟨fun sel => if sel = "h1" then [""] else [], fun _ => [], []⟩

/-- A fetcher that reports failure on any request. -/
def fetchUnused : String → Except String Soup := fun _ => Except.error "no request issued"

/-- A fetcher returning the empty page. -/
def fetchEmptyPage : String → Except String Soup := fun _ => Except.ok soupEmpty

/-- A fetcher returning the one-paragraph page. -/
def fetchPara : String → Except String Soup := fun _ => Except.ok soupPara

/-- A client whose output is a list of fragments with trailing and leading blanks. -/
def runFragmentsClient : String → Except String LMOutput :=
  fun _ => Except.ok (LMOutput.fragments ["a ", "b"])

/-- A client whose output is a single padded text. -/
def runTextClient : String → Except String LMOutput :=
  fun _ => Except.ok (LMOutput.text "  padded  ")

/-- A client that fails on every call. -/
def runFailClient : String → Except String LMOutput := fun _ => Except.error "service down"

/-- Appending strings concatenates their character data. -/
theorem strData_append (a b : String) : (a ++ b).data = a.data ++ b.data := by
  cases a
  cases b
  rfl

/-- String append is associative. -/
theorem strAppend_assoc (a b c : String) : a ++ b ++ c = a ++ (b ++ c) := by
  cases a with
  | mk l1 =>
    cases b with
    | mk l2 =>
      cases c with
      | mk l3 =>
        show String.mk (l1 ++ l2 ++ l3) = String.mk (l1 ++ (l2 ++ l3))
        rw [List.append_assoc]

/-- A string with non-empty data is not the empty string. -/
theorem str_ne_empty (a : String) (h : a.data ≠ []) : a ≠ "" := by
  intro he
  apply h
  rw [he]

/-- A string of length zero is the empty string. -/
theorem str_length_zero (s : String) (h : s.length = 0) : s = "" := by
  cases s with
  | mk cs =>
    cases cs with
    | nil => rfl
    | cons c cs =>
      have h2 : (c :: cs).length = 0 := h
      simp at h2

/-- C4 (amended): for every URL whose parse does not give both a non-empty
scheme and a non-empty network location, extract_content returns the failure
reason "Invalid URL format", independently of the fetcher, so no network call
can influence the outcome. -/
theorem url_validation_no_network (url : String) (h : is_valid_url url = false)
    (fetch fetch' : String → Except String Soup) :
    extract_content fetch url = Except.error "Invalid URL format" ∧
    extract_content fetch url = extract_content fetch' url := by
  constructor
  · simp [extract_content, h]
  · simp [extract_content, h]

/-- Witness for C4 at a concrete invalid URL and two different fetchers. -/
theorem url_validation_no_network_witness :
    extract_content fetchUnused "not a url" = Except.error "Invalid URL format" ∧
    extract_content fetchUnused "not a url" = extract_content fetchEmptyPage "not a url" :=
  url_validation_no_network "not a url" (by decide) fetchUnused fetchEmptyPage

/-- C4 counterexample to the stated message text: on an invalid URL the failure
reason is the capitalized "Invalid URL format", not "invalid URL format". -/
theorem url_validation_message_case :
    extract_content fetchUnused "not a url" = Except.error "Invalid URL format" ∧
    extract_content fetchUnused "not a url" ≠ Except.error "invalid URL format" := by
  constructor
  · decide
  · decide

/-- C6: when the selector scan yields fewer than 100 characters, the selected
content is instead the stripped paragraph texts longer than 20 characters
joined with single spaces, and the extracted content is its normalization. -/
theorem paragraph_fallback_under_100 (soup : Soup)
    (h : (scanContent soup).length < 100) :
    selectedContent soup =
      pyJoin " " ((soup.paragraphs.map strip).filter (fun t => decide (t.length > 20))) ∧
    extract_article_content soup =
      normalizeWs
        (pyJoin " " ((soup.paragraphs.map strip).filter (fun t => decide (t.length > 20)))) := by
  have h1 : selectedContent soup =
      pyJoin " " ((soup.paragraphs.map strip).filter (fun t => decide (t.length > 20))) := by
    unfold selectedContent
    rw [if_pos h]
  refine ⟨h1, ?_⟩
  unfold extract_article_content
  rw [h1]

/-- Witness for C6 on the one-paragraph page. -/
theorem paragraph_fallback_under_100_witness :
    selectedContent soupPara =
      pyJoin " " ((soupPara.paragraphs.map strip).filter (fun t => decide (t.length > 20))) ∧
    extract_article_content soupPara =
      normalizeWs
        (pyJoin " " ((soupPara.paragraphs.map strip).filter (fun t => decide (t.length > 20)))) :=
  paragraph_fallback_under_100 soupPara (by decide)

/-- C3: summarize never fails outward: with no client it returns exactly the
extractive fallback, the fallback is non-empty for non-empty content, and an
error from the one external call also degrades to the fallback. -/
theorem summarize_never_fails (title content : String) (h : content ≠ "") :
    summarize none title content = fallback_summarize content ∧
    fallback_summarize content ≠ "" ∧
    ∀ (run : String → Except String LMOutput) (e : String),
      run (buildPrompt title content) = Except.error e →
      summarize (some run) title content = fallback_summarize content := by
  refine ⟨rfl, ?_, ?_⟩
  · unfold fallback_summarize
    by_cases h3 : (sentenceUnits content).length ≥ 3
    · rw [if_pos h3]
      apply str_ne_empty
      rw [strData_append]
      intro hc
      rcases List.append_eq_nil.mp hc with ⟨_, h2⟩
      exact absurd h2 (by decide)
    · rw [if_neg h3]
      by_cases h5 : content.length > 500
      · rw [if_pos h5]
        apply str_ne_empty
        rw [strData_append]
        intro hc
        rcases List.append_eq_nil.mp hc with ⟨_, h2⟩
        exact absurd h2 (by decide)
      · rw [if_neg h5]
        exact h
  · intro run e hre
    simp [summarize, hre]

/-- Witness for C3 at concrete non-empty content and a failing client. -/
theorem summarize_never_fails_witness :
    summarize none "T" "Hello world" = fallback_summarize "Hello world" ∧
    fallback_summarize "Hello world" ≠ "" ∧
    summarize (some runFailClient) "T" "Hello world" = fallback_summarize "Hello world" := by
  have h := summarize_never_fails "T" "Hello world" (by decide)
  exact ⟨h.1, h.2.1, h.2.2 runFailClient "service down" rfl⟩

/-- C9 (amended): post-processing of the external result: a fragments list is
filtered of falsy fragments, each fragment stripped, joined with single spaces,
and the join stripped; a single text value is returned stripped. -/
theorem external_output_postprocessed (run : String → Except String LMOutput)
    (title content : String) :
    (∀ xs, run (buildPrompt title content) = Except.ok (LMOutput.fragments xs) →
      summarize (some run) title content =
        strip (pyJoin " " ((xs.filter (fun o => o != "")).map strip))) ∧
    (∀ s, run (buildPrompt title content) = Except.ok (LMOutput.text s) →
      summarize (some run) title content = strip s) := by
  constructor
  · intro xs hxs
    simp [summarize, hxs]
  · intro s hs
    simp [summarize, hs]

/-- Witness for C9 on concrete clients returning a single text and a list. -/
theorem external_output_postprocessed_witness :
    summarize (some runTextClient) "t" "c" = strip "  padded  " ∧
    summarize (some runFragmentsClient) "t" "c" =
      strip (pyJoin " " ((["a ", "b"].filter (fun o => o != "")).map strip)) :=
  ⟨(external_output_postprocessed runTextClient "t" "c").2 "  padded  " rfl,
   (external_output_postprocessed runFragmentsClient "t" "c").1 ["a ", "b"] rfl⟩

/-- C9 counterexample to the stated claim: for a fragment list with whitespace
inside a fragment edge, the summary is not the plain join of the fragments with
only the join trimmed, because each fragment is itself stripped before joining. -/
theorem external_output_join_counterexample :
    summarize (some runFragmentsClient) "t" "c" = "a b" ∧
    strip (pyJoin " " ["a ", "b"]) = "a  b" ∧
    summarize (some runFragmentsClient) "t" "c" ≠ strip (pyJoin " " ["a ", "b"]) := by
  refine ⟨by decide, by decide, by decide⟩

/-- C10: the extracted title depends only on the first matching element of each
title selector: two documents agreeing on the head of every title-selector
match list get the same title, so elements after the first match of a selector
are never examined. -/
theorem title_first_element_only (soup soup' : Soup)
    (h : ∀ sel ∈ title_selectors, (soup.select sel).head? = (soup'.select sel).head?) :
    extract_title soup = extract_title soup' := by
  have go : ∀ L : List String,
      (∀ sel ∈ L, (soup.select sel).head? = (soup'.select sel).head?) →
      extractTitleGo soup L = extractTitleGo soup' L := by
    intro L
    induction L with
    | nil => intro _; rfl
    | cons s rest ih =>
      intro hL
      unfold extractTitleGo
      rw [hL s (List.mem_cons_self s rest)]
      cases (soup'.select s).head? with
      | none => exact ih (fun sel hs => hL sel (List.mem_cons_of_mem s hs))
      | some t =>
        show (if strip t = "" then extractTitleGo soup rest else strip t)
          = (if strip t = "" then extractTitleGo soup' rest else strip t)
        by_cases ht : strip t = ""
        · rw [if_pos ht, if_pos ht]
          exact ih (fun sel hs => hL sel (List.mem_cons_of_mem s hs))
        · rw [if_neg ht, if_neg ht]
  exact go title_selectors h

/-- Witness for C10: a page whose first h1 is empty and whose second h1 carries
text gets the placeholder title, never the second h1 text. -/
theorem title_first_element_only_witness :
    extract_title soupTwoH1 = "Article Title" ∧ "Article Title" ≠ "Second headline" := by
  have h := title_first_element_only soupTwoH1 soupOneH1 ?_
  · exact ⟨h.trans (by decide), by decide⟩
  · intro sel hs
    fin_cases hs <;> rfl

/-- C2: for every content the extractive fallback equals the summary the spec
describes, and the four-sentence example yields its first three sentences. -/
theorem fallback_matches_spec :
    (∀ content, fallback_summarize content = fallbackSummarySpec content) ∧
    fallback_summarize "A is true. B is true. C is true. D is true."
      = "A is true. B is true. C is true." := by
  constructor
  · intro content
    unfold fallback_summarize fallbackSummarySpec
    rcases hs : sentenceUnits content with _ | ⟨u1, _ | ⟨u2, _ | ⟨u3, us⟩⟩⟩
    · rw [if_neg (by decide)]
      show (if content.length > 500 then pyTake 500 content ++ "..." else content)
        = (if content.length ≤ 500 then content else pyTake 500 content ++ "...")
      by_cases h5 : content.length ≤ 500
      · rw [if_neg (by omega), if_pos h5]
      · rw [if_pos (by omega), if_neg h5]
    · rw [if_neg (by simp only [List.length_cons, List.length_nil]; omega)]
      show (if content.length > 500 then pyTake 500 content ++ "..." else content)
        = (if content.length ≤ 500 then content else pyTake 500 content ++ "...")
      by_cases h5 : content.length ≤ 500
      · rw [if_neg (by omega), if_pos h5]
      · rw [if_pos (by omega), if_neg h5]
    · rw [if_neg (by simp only [List.length_cons, List.length_nil]; omega)]
      show (if content.length > 500 then pyTake 500 content ++ "..." else content)
        = (if content.length ≤ 500 then content else pyTake 500 content ++ "...")
      by_cases h5 : content.length ≤ 500
      · rw [if_neg (by omega), if_pos h5]
      · rw [if_pos (by omega), if_neg h5]
    · rw [if_pos (by rw [List.length_cons, List.length_cons, List.length_cons]; omega)]
      show ((u1 ++ ". ") ++ ((u2 ++ ". ") ++ u3)) ++ "."
        = u1 ++ ". " ++ u2 ++ ". " ++ u3 ++ "."
      simp only [strAppend_assoc]
  · decide

/-- Helper for C5: dropping an empty candidate keeps the first non-empty one. -/
theorem firstNonEmptyTitle_cons_empty (t : String) (l : List String) (h : t = "") :
    firstNonEmptyTitle (t :: l) = firstNonEmptyTitle l := by
  unfold firstNonEmptyTitle
  rw [List.filter_cons, if_neg (by simp [h])]

/-- Helper for C5: a leading non-empty candidate is the result. -/
theorem firstNonEmptyTitle_cons_ne (t : String) (l : List String) (h : ¬ t = "") :
    firstNonEmptyTitle (t :: l) = t := by
  unfold firstNonEmptyTitle
  rw [List.filter_cons, if_pos (by simp [h])]

/-- Helper for C5: the title loop over any selector list returns the first
candidate whose stripped text is non-empty, else the placeholder. -/
theorem extractTitleGo_spec (soup : Soup) (L : List String) :
    extractTitleGo soup L =
      firstNonEmptyTitle
        ((L.filterMap (fun sel => (soup.select sel).head?)).map strip) := by
  induction L with
  | nil => rfl
  | cons s rest ih =>
    unfold extractTitleGo
    cases h : (soup.select s).head? with
    | none =>
      rw [@List.filterMap_cons_none String String (fun sel => (soup.select sel).head?) s rest h]
      exact ih
    | some t =>
      rw [@List.filterMap_cons_some String String (fun sel => (soup.select sel).head?) s rest t h,
        List.map_cons]
      show (if strip t = "" then extractTitleGo soup rest else strip t) = _
      by_cases ht : strip t = ""
      · rw [if_pos ht, firstNonEmptyTitle_cons_empty (strip t) _ ht]
        exact ih
      · rw [if_neg ht, firstNonEmptyTitle_cons_ne (strip t) _ ht]

/-- C5: for every parsed document, the extracted title is the first candidate
in the fixed selector order whose text is non-empty after trimming, else the
fixed placeholder "Article Title", exactly the spec title selection. -/
theorem extract_title_matches_spec : ∀ soup : Soup, extract_title soup = titleSpec soup := by
  intro soup
  unfold extract_title titleSpec
  exact extractTitleGo_spec soup title_selectors

/-- One-step equation of the spec longest candidate on a non-empty list. -/
theorem longestCandidate_cons (t : String) (rest : List String) :
    longestCandidate (t :: rest) =
      if (longestCandidate rest).length > t.length then longestCandidate rest else t := rfl

/-- Helper for C1: the scan fold from any accumulator keeps the accumulator
unless the first-seen longest later candidate is strictly longer. -/
theorem scanFold_longest (l : List String) : ∀ acc : String,
    l.foldl scanStep acc =
      if (longestCandidate l).length > acc.length then longestCandidate l else acc := by
  induction l with
  | nil =>
    intro acc
    show acc = if ("" : String).length > acc.length then "" else acc
    rw [if_neg (by intro hc; rw [show ("" : String).length = 0 from rfl] at hc; omega)]
  | cons t rest ih =>
    intro acc
    rw [List.foldl_cons, ih, longestCandidate_cons]
    unfold scanStep
    split_ifs <;> first | rfl | omega


/-- Helper for C1: the spec candidate is empty or occurs in the list. -/
theorem longestCandidate_mem (l : List String) :
    longestCandidate l = "" ∨ longestCandidate l ∈ l := by
  induction l with
  | nil => exact Or.inl rfl
  | cons t rest ih =>
    rw [longestCandidate_cons]
    by_cases h : (longestCandidate rest).length > t.length
    · rw [if_pos h]
      rcases ih with h0 | hm
      · exact Or.inl h0
      · exact Or.inr (List.mem_cons_of_mem _ hm)
    · rw [if_neg h]
      exact Or.inr (List.mem_cons_self _ _)

/-- Helper for C1: every candidate is at most as long as the spec candidate. -/
theorem longestCandidate_le (l : List String) :
    ∀ c ∈ l, c.length ≤ (longestCandidate l).length := by
  induction l with
  | nil => intro c hc; cases hc
  | cons t rest ih =>
    intro c hc
    rw [longestCandidate_cons]
    rcases List.mem_cons.mp hc with rfl | hm
    · by_cases h : (longestCandidate rest).length > c.length
      · rw [if_pos h]; omega
      · rw [if_neg h]
    · by_cases h : (longestCandidate rest).length > t.length
      · rw [if_pos h]; exact ih c hm
      · rw [if_neg h]
        have := ih c hm
        omega

/-- Helper for C1: when one candidate is strictly longer than every other, the
spec candidate is that one. -/
theorem longestCandidate_unique : ∀ (l : List String) (m : String), m ∈ l →
    (∀ c ∈ l, c ≠ m → c.length < m.length) → longestCandidate l = m := by
  intro l
  induction l with
  | nil => intro m hm _; cases hm
  | cons t rest ih =>
    intro m hm hu
    rw [longestCandidate_cons]
    by_cases htm : t = m
    · subst htm
      have hle : ¬ (longestCandidate rest).length > t.length := by
        rcases longestCandidate_mem rest with h0 | hmem
        · rw [h0, show ("" : String).length = 0 from rfl]
          omega
        · by_cases he : longestCandidate rest = t
          · rw [he]; omega
          · have := hu _ (List.mem_cons_of_mem _ hmem) he
            omega
      rw [if_neg hle]
    · have hm2 : m ∈ rest := by
        rcases List.mem_cons.mp hm with h0 | h0
        · exact absurd h0.symm htm
        · exact h0
      have ht : t.length < m.length := hu t (List.mem_cons_self _ _) htm
      have hr : longestCandidate rest = m :=
        ih m hm2 (fun c hc hcm => hu c (List.mem_cons_of_mem _ hc) hcm)
      rw [hr, if_pos (by omega)]

/-- Helper for C1: the scan over any candidate list equals the spec candidate. -/
theorem scanBest_eq_longest (l : List String) : scanBest l = longestCandidate l := by
  unfold scanBest
  rw [scanFold_longest]
  by_cases h : (longestCandidate l).length > ("" : String).length
  · rw [if_pos h]
  · rw [if_neg h]
    rw [show ("" : String).length = 0 from rfl] at h
    exact (str_length_zero _ (by omega)).symm

/-- Helper for C1: the selector scan is the scan of the stripped candidates. -/
theorem scanContent_eq_scanBest (soup : Soup) :
    scanContent soup = scanBest (candidateTexts soup) := by
  unfold scanContent scanBest candidateTexts
  rw [List.foldl_map]

/-- C1: the content selector scan picks exactly the longest stripped candidate:
it equals the spec first-seen-wins longest candidate, no candidate is longer
than the scan result, and with a unique longest candidate any scan order gives
that candidate, so the longer of two blocks wins regardless of order. -/
theorem content_scan_picks_longest :
    (∀ soup : Soup, scanContent soup = longestCandidate (candidateTexts soup)) ∧
    (∀ l : List String, ∀ c ∈ l, c.length ≤ (scanBest l).length) ∧
    (∀ (l l' : List String) (m : String), l.Perm l' → m ∈ l →
      (∀ c ∈ l, c ≠ m → c.length < m.length) → scanBest l = m ∧ scanBest l' = m) := by
  refine ⟨?_, ?_, ?_⟩
  · intro soup
    rw [scanContent_eq_scanBest, scanBest_eq_longest]
  · intro l c hc
    rw [scanBest_eq_longest]
    exact longestCandidate_le l c hc
  · intro l l' m hperm hm hu
    constructor
    · rw [scanBest_eq_longest]
      exact longestCandidate_unique l m hm hu
    · rw [scanBest_eq_longest]
      exact longestCandidate_unique l' m (hperm.mem_iff.mp hm)
        (fun c hc hcm => hu c (hperm.mem_iff.mpr hc) hcm)

/-- Witness for C1: a 200-character block beats a 50-character block in either
scan order. -/
theorem content_scan_picks_longest_witness :
    scanBest [blockShort, blockLong] = blockLong ∧
    scanBest [blockLong, blockShort] = blockLong :=
  content_scan_picks_longest.2.2 [blockShort, blockLong] [blockLong, blockShort] blockLong
    (List.Perm.swap blockLong blockShort [])
    (by decide)
    (by
      intro c hc hcm
      rcases List.mem_cons.mp hc with rfl | hc2
      · decide
      · rcases List.mem_cons.mp hc2 with rfl | hc3
        · exact absurd rfl hcm
        · cases hc3)

/-- A whitespace character collapses to a space. -/
theorem wsToSpace_of_ws (c : Char) (h : isPySpace c = true) : wsToSpace c = ' ' := by
  unfold wsToSpace
  rw [if_pos h]

/-- A non-whitespace character is untouched by collapsing. -/
theorem wsToSpace_of_not (c : Char) (h : isPySpace c = false) : wsToSpace c = c := by
  unfold wsToSpace
  rw [if_neg (by simp [h])]

/-- Collapsing a character twice is collapsing it once. -/
theorem wsToSpace_idem (c : Char) : wsToSpace (wsToSpace c) = wsToSpace c := by
  cases h : isPySpace c with
  | true =>
    rw [wsToSpace_of_ws c h]
    rfl
  | false =>
    rw [wsToSpace_of_not c h, wsToSpace_of_not c h]

/-- One-step equation of collapseWs on a single character. -/
theorem collapseWs_single (c : Char) : collapseWs [c] = [wsToSpace c] := rfl

/-- One-step equation of collapseWs on two or more characters. -/
theorem collapseWs_cons_cons (c d : Char) (cs : List Char) :
    collapseWs (c :: d :: cs) =
      if isPySpace c && isPySpace d then collapseWs (d :: cs)
      else wsToSpace c :: collapseWs (d :: cs) := rfl

/-- One-step equation of noAdjWs on two or more characters. -/
theorem noAdjWs_cons_cons (c d : Char) (cs : List Char) :
    noAdjWs (c :: d :: cs) = (!(isPySpace c && isPySpace d) && noAdjWs (d :: cs)) := rfl

/-- One-step equation of dropTrailWs on a non-empty list. -/
theorem dropTrailWs_cons (c : Char) (cs : List Char) :
    dropTrailWs (c :: cs) =
      if dropTrailWs cs = [] then (if isPySpace c then [] else [c])
      else c :: dropTrailWs cs := rfl

/-- One-step equation of lastNonWs on two or more characters. -/
theorem lastNonWs_cons_cons (c d : Char) (ds : List Char) :
    lastNonWs (c :: d :: ds) = lastNonWs (d :: ds) := rfl

/-- The tail of a list without adjacent whitespace has none either. -/
theorem noAdjWs_tail (c : Char) (cs : List Char) (h : noAdjWs (c :: cs) = true) :
    noAdjWs cs = true := by
  cases cs with
  | nil => rfl
  | cons d ds =>
    rw [noAdjWs_cons_cons] at h
    simp only [Bool.and_eq_true] at h
    exact h.2

/-- Collapsing keeps a leading non-whitespace character in place. -/
theorem collapseWs_head (d : Char) (cs : List Char) (h : isPySpace d = false) :
    ∃ es, collapseWs (d :: cs) = d :: es := by
  cases cs with
  | nil =>
    refine ⟨[], ?_⟩
    rw [collapseWs_single, wsToSpace_of_not d h]
  | cons e es =>
    refine ⟨collapseWs (e :: es), ?_⟩
    rw [collapseWs_cons_cons, if_neg (by simp [h]), wsToSpace_of_not d h]

/-- The collapsed list has no adjacent whitespace characters. -/
theorem noAdjWs_collapse (cs : List Char) : noAdjWs (collapseWs cs) = true := by
  induction cs with
  | nil => rfl
  | cons c cs ih =>
    cases cs with
    | nil => rfl
    | cons d ds =>
      by_cases h : (isPySpace c && isPySpace d) = true
      · rw [collapseWs_cons_cons, if_pos h]
        exact ih
      · rw [collapseWs_cons_cons, if_neg h]
        cases hcol : collapseWs (d :: ds) with
        | nil => rfl
        | cons f fs =>
          rw [noAdjWs_cons_cons]
          have h2 : noAdjWs (f :: fs) = true := by
            rw [← hcol]
            exact ih
          cases hc : isPySpace c with
          | false =>
            rw [wsToSpace_of_not c hc, hc]
            simp [h2]
          | true =>
            rw [hc] at h
            simp only [Bool.true_and] at h
            have hd : isPySpace d = false := by
              cases hdd : isPySpace d
              · rfl
              · exact absurd hdd h
            obtain ⟨es, he⟩ := collapseWs_head d ds hd
            rw [he] at hcol
            injection hcol with h1 h3
            subst h1
            rw [wsToSpace_of_ws c hc, hd]
            simp [h2]

/-- On a list without adjacent whitespace, collapsing is the character map. -/
theorem collapseWs_eq_map (cs : List Char) (h : noAdjWs cs = true) :
    collapseWs cs = cs.map wsToSpace := by
  induction cs with
  | nil => rfl
  | cons c cs ih =>
    cases cs with
    | nil => rfl
    | cons d ds =>
      rw [noAdjWs_cons_cons] at h
      simp only [Bool.and_eq_true] at h
      obtain ⟨h1, h2⟩ := h
      have hcd : ¬ ((isPySpace c && isPySpace d) = true) := by
        intro hx
        rw [hx] at h1
        exact Bool.noConfusion h1
      rw [collapseWs_cons_cons, if_neg hcd, List.map_cons, ih h2]

/-- Collapsing an already collapsed list changes nothing under the map. -/
theorem collapseWs_map_fixed (cs : List Char) :
    (collapseWs cs).map wsToSpace = collapseWs cs := by
  induction cs with
  | nil => rfl
  | cons c cs ih =>
    cases cs with
    | nil =>
      rw [collapseWs_single, List.map_cons, List.map_nil, wsToSpace_idem]
    | cons d ds =>
      by_cases h : (isPySpace c && isPySpace d) = true
      · rw [collapseWs_cons_cons, if_pos h]
        exact ih
      · rw [collapseWs_cons_cons, if_neg h, List.map_cons, wsToSpace_idem, ih]

/-- Dropping a whitespace prefix keeps adjacent whitespace absent. -/
theorem noAdjWs_dropWhile (cs : List Char) (h : noAdjWs cs = true) :
    noAdjWs (cs.dropWhile isPySpace) = true := by
  induction cs with
  | nil => rfl
  | cons c cs ih =>
    rw [List.dropWhile_cons]
    by_cases hc : isPySpace c = true
    · rw [if_pos hc]
      exact ih (noAdjWs_tail c cs h)
    · rw [if_neg hc]
      exact h

/-- A non-empty trailing-stripped list starts with the original head. -/
theorem dropTrailWs_head (cs : List Char) (d : Char) (ds : List Char)
    (h : dropTrailWs cs = d :: ds) : ∃ t, cs = d :: t := by
  cases cs with
  | nil => exact List.noConfusion h
  | cons c cs' =>
    refine ⟨cs', ?_⟩
    rw [dropTrailWs_cons] at h
    by_cases hd : dropTrailWs cs' = []
    · rw [if_pos hd] at h
      by_cases hc : isPySpace c = true
      · rw [if_pos hc] at h
        exact List.noConfusion h
      · rw [if_neg hc] at h
        injection h with h1 h2
        rw [h1]
    · rw [if_neg hd] at h
      injection h with h1 h2
      rw [h1]

/-- Dropping trailing whitespace keeps adjacent whitespace absent. -/
theorem noAdjWs_dropTrail (cs : List Char) (h : noAdjWs cs = true) :
    noAdjWs (dropTrailWs cs) = true := by
  induction cs with
  | nil => rfl
  | cons c cs' ih =>
    rw [dropTrailWs_cons]
    by_cases hd : dropTrailWs cs' = []
    · rw [if_pos hd]
      by_cases hc : isPySpace c = true
      · rw [if_pos hc]; rfl
      · rw [if_neg hc]; rfl
    · rw [if_neg hd]
      cases he : dropTrailWs cs' with
      | nil => exact absurd he hd
      | cons e es =>
        rw [noAdjWs_cons_cons]
        have h2 : noAdjWs (e :: es) = true := by
          rw [← he]
          exact ih (noAdjWs_tail c cs' h)
        obtain ⟨t, ht⟩ := dropTrailWs_head cs' e es he
        have h1 : (!(isPySpace c && isPySpace e)) = true := by
          rw [ht, noAdjWs_cons_cons] at h
          simp only [Bool.and_eq_true] at h
          exact h.1
        rw [h1, h2]
        rfl

/-- The head after dropping a whitespace prefix is not whitespace. -/
theorem headNonWs_dropWhile (cs : List Char) :
    headNonWs (cs.dropWhile isPySpace) = true := by
  induction cs with
  | nil => rfl
  | cons c cs ih =>
    rw [List.dropWhile_cons]
    by_cases hc : isPySpace c = true
    · rw [if_pos hc]
      exact ih
    · rw [if_neg hc]
      show (!isPySpace c) = true
      cases hcc : isPySpace c
      · rfl
      · exact absurd hcc hc

/-- Dropping trailing whitespace keeps the head non-whitespace. -/
theorem headNonWs_dropTrail (cs : List Char) (h : headNonWs cs = true) :
    headNonWs (dropTrailWs cs) = true := by
  cases he : dropTrailWs cs with
  | nil => rfl
  | cons d ds =>
    obtain ⟨t, ht⟩ := dropTrailWs_head cs d ds he
    rw [ht] at h
    exact h

/-- After dropping trailing whitespace, the last character is not whitespace. -/
theorem lastNonWs_dropTrail (cs : List Char) : lastNonWs (dropTrailWs cs) = true := by
  induction cs with
  | nil => rfl
  | cons c cs' ih =>
    rw [dropTrailWs_cons]
    by_cases hd : dropTrailWs cs' = []
    · rw [if_pos hd]
      by_cases hc : isPySpace c = true
      · rw [if_pos hc]; rfl
      · rw [if_neg hc]
        show (!isPySpace c) = true
        cases hcc : isPySpace c
        · rfl
        · exact absurd hcc hc
    · rw [if_neg hd]
      cases he : dropTrailWs cs' with
      | nil => exact absurd he hd
      | cons e es =>
        rw [lastNonWs_cons_cons, ← he]
        exact ih

/-- A pointwise-fixed map stays fixed after dropping a prefix. -/
theorem map_fixed_dropWhile (f : Char → Char) (p : Char → Bool) (cs : List Char)
    (h : cs.map f = cs) : (cs.dropWhile p).map f = cs.dropWhile p := by
  induction cs with
  | nil => rfl
  | cons c cs ih =>
    rw [List.map_cons] at h
    injection h with h1 h2
    rw [List.dropWhile_cons]
    by_cases hc : p c = true
    · rw [if_pos hc]
      exact ih h2
    · rw [if_neg hc, List.map_cons, h1, h2]

/-- A pointwise-fixed map stays fixed after dropping trailing whitespace. -/
theorem map_fixed_dropTrail (f : Char → Char) (cs : List Char)
    (h : cs.map f = cs) : (dropTrailWs cs).map f = dropTrailWs cs := by
  induction cs with
  | nil => rfl
  | cons c cs' ih =>
    rw [List.map_cons] at h
    injection h with h1 h2
    rw [dropTrailWs_cons]
    by_cases hd : dropTrailWs cs' = []
    · rw [if_pos hd]
      by_cases hc : isPySpace c = true
      · rw [if_pos hc]; rfl
      · rw [if_neg hc, List.map_cons, h1, List.map_nil]
    · rw [if_neg hd, List.map_cons, h1, ih h2]

/-- Dropping a whitespace prefix does nothing when the head is not whitespace. -/
theorem dropWhile_of_headNonWs (cs : List Char) (h : headNonWs cs = true) :
    cs.dropWhile isPySpace = cs := by
  cases cs with
  | nil => rfl
  | cons c cs =>
    have hc : ¬ (isPySpace c = true) := by
      intro hc
      have h2 : (!isPySpace c) = true := h
      rw [hc] at h2
      exact Bool.noConfusion h2
    rw [List.dropWhile_cons, if_neg hc]

/-- Dropping trailing whitespace does nothing when the last character is not
whitespace. -/
theorem dropTrail_of_lastNonWs (cs : List Char) (h : lastNonWs cs = true) :
    dropTrailWs cs = cs := by
  induction cs with
  | nil => rfl
  | cons c cs' ih =>
    cases cs' with
    | nil =>
      have hc : ¬ (isPySpace c = true) := by
        intro hc
        have h2 : (!isPySpace c) = true := h
        rw [hc] at h2
        exact Bool.noConfusion h2
      rw [dropTrailWs_cons, if_pos (show dropTrailWs ([] : List Char) = [] from rfl),
        if_neg hc]
    | cons d ds =>
      have h2 : lastNonWs (d :: ds) = true := h
      have ih2 : dropTrailWs (d :: ds) = d :: ds := ih h2
      rw [dropTrailWs_cons, ih2, if_neg (by simp)]

/-- The stripped list of a list without adjacent whitespace has none either. -/
theorem noAdjWs_pyStrip (cs : List Char) (h : noAdjWs cs = true) :
    noAdjWs (pyStripChars cs) = true :=
  noAdjWs_dropTrail _ (noAdjWs_dropWhile _ h)

/-- The stripped list starts with a non-whitespace character. -/
theorem headNonWs_pyStrip (cs : List Char) : headNonWs (pyStripChars cs) = true :=
  headNonWs_dropTrail _ (headNonWs_dropWhile _)

/-- The stripped list ends with a non-whitespace character. -/
theorem lastNonWs_pyStrip (cs : List Char) : lastNonWs (pyStripChars cs) = true :=
  lastNonWs_dropTrail _

/-- Collapsing then stripping twice is collapsing then stripping once. -/
theorem pyStripChars_collapse_idem (cs : List Char) :
    pyStripChars (collapseWs (pyStripChars (collapseWs cs))) =
      pyStripChars (collapseWs cs) := by
  have hnx : noAdjWs (collapseWs cs) = true := noAdjWs_collapse cs
  have hny : noAdjWs (pyStripChars (collapseWs cs)) = true := noAdjWs_pyStrip _ hnx
  have hfx : (collapseWs cs).map wsToSpace = collapseWs cs := collapseWs_map_fixed cs
  have hfy : (pyStripChars (collapseWs cs)).map wsToSpace = pyStripChars (collapseWs cs) :=
    map_fixed_dropTrail _ _ (map_fixed_dropWhile _ _ _ hfx)
  have hcy : collapseWs (pyStripChars (collapseWs cs)) = pyStripChars (collapseWs cs) := by
    rw [collapseWs_eq_map _ hny, hfy]
  rw [hcy]
  show dropTrailWs ((pyStripChars (collapseWs cs)).dropWhile isPySpace)
    = pyStripChars (collapseWs cs)
  rw [dropWhile_of_headNonWs _ (headNonWs_pyStrip _),
    dropTrail_of_lastNonWs _ (lastNonWs_pyStrip _)]

/-- C8: whitespace normalization is idempotent: normalizing already normalized
content returns it unchanged. -/
theorem normalize_idempotent : ∀ s : String, normalizeWs (normalizeWs s) = normalizeWs s := by
  intro s
  show (⟨pyStripChars (collapseWs (normalizeWs s).data)⟩ : String) = normalizeWs s
  have hd : (normalizeWs s).data = pyStripChars (collapseWs s.data) := rfl
  rw [hd, pyStripChars_collapse_idem]
  rfl

/-- The normalized string has no long whitespace runs and no whitespace ends. -/
theorem isNormalized_normalizeWs (s : String) : isNormalized (normalizeWs s) = true := by
  unfold isNormalized
  have hd : (normalizeWs s).data = pyStripChars (collapseWs s.data) := rfl
  rw [hd, noAdjWs_pyStrip _ (noAdjWs_collapse s.data), headNonWs_pyStrip,
    lastNonWs_pyStrip]
  rfl

/-- C7 (amended): on a fetched and parsed page, empty extracted content yields
the failure reason "Could not extract article content" even though a title was
computed, and every successful extraction carries non-empty content that is
whitespace-normalized: no run of whitespace longer than one character and no
leading or trailing whitespace. -/
theorem empty_content_failure_success_invariant (fetch : String → Except String Soup)
    (url : String) (soup : Soup) (hv : is_valid_url url = true)
    (hf : fetch url = Except.ok soup) :
    (extract_article_content soup = "" →
      extract_content fetch url = Except.error "Could not extract article content") ∧
    (∀ a : Article, extract_content fetch url = Except.ok a →
      a.content ≠ "" ∧ isNormalized a.content = true) := by
  have hbase : extract_content fetch url =
      (if extract_article_content soup = "" then
        Except.error "Could not extract article content"
      else Except.ok ⟨extract_title soup, extract_article_content soup, url⟩) := by
    unfold extract_content
    rw [if_pos hv, hf]
  constructor
  · intro h0
    rw [hbase, if_pos h0]
  · intro a ha
    rw [hbase] at ha
    by_cases h0 : extract_article_content soup = ""
    · rw [if_pos h0] at ha
      exact Except.noConfusion ha
    · rw [if_neg h0] at ha
      have haa : a = ⟨extract_title soup, extract_article_content soup, url⟩ :=
        (Except.ok.inj ha).symm
      rw [haa]
      refine ⟨h0, ?_⟩
      show isNormalized (extract_article_content soup) = true
      unfold extract_article_content
      exact isNormalized_normalizeWs _

/-- Witness for C7 on a concretely fetched page with one long paragraph. -/
theorem empty_content_failure_success_invariant_witness :
    extract_content fetchPara "http://x" = Except.ok articlePara ∧
    articlePara.content ≠ "" ∧ isNormalized articlePara.content = true := by
  have h := empty_content_failure_success_invariant fetchPara "http://x" soupPara
    (by decide) rfl
  have hok : extract_content fetchPara "http://x" = Except.ok articlePara := by decide
  exact ⟨hok, h.2 articlePara hok⟩

/-- C7 counterexample to the stated message text: on an empty page the failure
reason is the capitalized "Could not extract article content". -/
theorem empty_content_message_case :
    extract_content fetchEmptyPage "http://x"
      = Except.error "Could not extract article content" ∧
    extract_content fetchEmptyPage "http://x"
      ≠ Except.error "could not extract article content" := by
  constructor
  · decide
  · decide
